import Mathlib

/-!
Verification of the go-myanimelist client's request/response pipeline.

The definitions below are a shallow embedding of the repository's Go code:

* `readResponse`, `Do`, `post`, `deleteCall`, `query` embed the functions of
  the same names in the client file (the transport call `c.client.Do(req)` is
  abstracted: the theorems quantify over the `HTTPResponse` the transport
  delivered, and a transport failure is out of scope of the claims).
* `replaceBull` embeds `bytes.Replace(b, []byte("&bull;"),
  []byte("<![CDATA[&bull;]]>"), -1)`, specialised to its fixed, non-empty
  pattern: the left-to-right, non-overlapping replacement of every match.
* Bodies are modelled as `String` / `List Char`; Go byte slices of the
  responses at issue are ASCII text, so characters stand in for bytes.
-/

namespace Mal

/-- The fields of a Go `http.Response` that the client reads: the request
method and resolved URL (`r.Request.Method`, `r.Request.URL`), the status
code, and the body bytes that `ioutil.ReadAll` returns. -/
structure HTTPResponse where
  method : String
  url : String
  statusCode : Nat
  body : String
  deriving DecidableEq, Repr

/-- The client's `Response` type: it wraps the raw `*http.Response` and holds
the fully buffered body bytes. -/
structure Response where
  resp : HTTPResponse
  body : String
  deriving DecidableEq, Repr

/-- The message built by
`fmt.Errorf("%v %v: %d %s", r.Request.Method, r.Request.URL, r.StatusCode, string(data))`. -/
def requestFailedMsg (r : HTTPResponse) : String :=
  r.method ++ " " ++ r.url ++ ": " ++ toString r.statusCode ++ " " ++ r.body

/-- Embedding of `readResponse`: wrap the raw response, buffer the body, and
classify the status code (`if r.StatusCode < 200 || r.StatusCode > 299`).
The Go function returns `(resp, err)`; the error is the second component. -/
def readResponse (r : HTTPResponse) : Response × Option String :=
  let resp : Response := { resp := r, body := r.body }
  if r.statusCode < 200 || r.statusCode > 299 then
    (resp, some (requestFailedMsg r))
  else
    (resp, none)

/-- The pattern `&bull;` as a character list. -/
def bull : List Char := ['&', 'b', 'u', 'l', 'l', ';']

/-- The replacement `<![CDATA[&bull;]]>` as a character list. -/
def cdataBull : List Char :=
  ['<', '!', '[', 'C', 'D', 'A', 'T', 'A', '[', '&', 'b', 'u', 'l', 'l', ';', ']', ']', '>']

/-- Embedding of `bytes.Replace(b, []byte("&bull;"), []byte("<![CDATA[&bull;]]>"), -1)`:
replace every non-overlapping occurrence of `&bull;`, scanning left to right
and continuing after the inserted replacement. -/
def replaceBull : List Char → List Char
  | [] => []
  | c :: rest =>
    if bull.isPrefixOf (c :: rest) then
      cdataBull ++ replaceBull (List.drop 6 (c :: rest))
    else
      c :: replaceBull rest
termination_by s => s.length
decreasing_by
  · simp [List.length_drop]; omega
  · simp

/-- The body rewrite `Do` applies before XML decoding. -/
def bullRewrite (s : String) : String := ⟨replaceBull s.data⟩

/-- Embedding of `Do(req, v)` after the transport delivered `r`.  `v` models
the decode target: `none` is Go's `nil` interface, and `some dec` models
`xml.Unmarshal(b, v)` for a non-nil target, returning `.error e` when the
unmarshal fails.  The result mirrors Go's `(*Response, error)` pair, with
`none` standing for a nil `*Response`. -/
def Do (r : HTTPResponse) (v : Option (String → Except String Unit)) :
    Option Response × Option String :=
  let (response, err) := readResponse r
  match err with
  | some e => (some response, some e)
  | none =>
    match v with
    | none => (some response, none)
    | some dec =>
      match dec (bullRewrite response.body) with
      | .error e => (some response, some ("cannot decode: " ++ e))
      | .ok _ => (some response, none)

/-- Embedding of `post`: it calls `Do(req, nil)` and on error discards the
response (`return nil, err`).  Request construction (endpoint, id, form body,
content type) does not affect this claim's control flow and is modelled
separately. -/
def post (r : HTTPResponse) : Option Response × Option String :=
  match Do r none with
  | (_, some e) => (none, some e)
  | (resp, none) => (resp, none)

/-- Embedding of `delete`: like `post`, it calls `Do(req, nil)` and on error
discards the response (`return nil, err`). -/
def deleteCall (r : HTTPResponse) : Option Response × Option String :=
  match Do r none with
  | (_, some e) => (none, some e)
  | (resp, none) => (resp, none)

/-- Embedding of `query`: it calls `Do(req, result)` and returns the response
alongside the error (`return resp, err`). -/
def query (r : HTTPResponse) (dec : String → Except String Unit) :
    Option Response × Option String :=
  match Do r (some dec) with
  | (resp, some e) => (resp, some e)
  | (resp, none) => (resp, none)

/-- `containsSeq pat s` holds when `pat` occurs as a contiguous subsequence
of `s` (the notion of occurrence used by `bytes.Replace`). -/
def containsSeq (pat : List Char) : List Char → Bool
  | [] => pat.isPrefixOf []
  | c :: rest => pat.isPrefixOf (c :: rest) || containsSeq pat rest

/-- `glueWith sep chunks` interleaves the chunks with the separator; a body
with exactly `n` occurrences of `&bull;` between `&`-free chunks is
`glueWith bull chunks` with `chunks.length = n + 1`. -/
def glueWith (sep : List Char) : List (List Char) → List Char
  | [] => []
  | [c] => c
  | c :: cs => c ++ sep ++ glueWith sep cs

/-- The tail of the CDATA opener after the initial `<`. -/
def cdataOpenTail : List Char := ['!', '[', 'C', 'D', 'A', 'T', 'A', '[']

/-- Scan for the first CDATA terminator `]]>`: returns the content before it
and the remainder after it, or `none` when the section is unterminated.
Models the CDATA scanning of Go's `encoding/xml`. -/
def splitCdata : List Char → Option (List Char × List Char)
  | [] => none
  | c :: rest =>
    if c = ']' ∧ [']', '>'].isPrefixOf rest = true then
      some ([], rest.drop 2)
    else
      match splitCdata rest with
      | none => none
      | some (content, r) => some (c :: content, r)

/-- Scan an entity reference after `&` up to the closing `;`: returns the
entity name and the remainder, or `none` when unterminated. -/
def entitySplit : List Char → Option (List Char × List Char)
  | [] => none
  | c :: rest =>
    if c = ';' then
      some ([], rest)
    else
      match entitySplit rest with
      | none => none
      | some (name, r) => some (c :: name, r)

/-- The predefined XML entities accepted by Go's `encoding/xml` in strict
mode (`lt`, `gt`, `amp`, `apos`, `quot`); every other name — `bull` in
particular — is an invalid character entity and makes the parse fail.
Numeric character references are irrelevant to the claims and omitted. -/
def entityValue : List Char → Option Char
  | ['l', 't'] => some '<'
  | ['g', 't'] => some '>'
  | ['a', 'm', 'p'] => some '&'
  | ['a', 'p', 'o', 's'] => some (Char.ofNat 39)
  | ['q', 'u', 'o', 't'] => some (Char.ofNat 34)
  | _ => none

/-- Decoder for the character data of one XML element, following Go's
`encoding/xml` in strict mode: plain characters pass through, a CDATA
section contributes its content literally, an entity reference must be one
of the predefined entities, and any other markup (`<` not opening a CDATA
section) ends the pure character-data shape this model covers.  This is the
decoding applied to the target field's raw text when `xml.Unmarshal` fills a
string field. -/
def decodeCD : List Char → Option (List Char)
  | [] => some []
  | c :: rest =>
    if c = '<' then
      if cdataOpenTail.isPrefixOf rest = true then
        match hsp : splitCdata (rest.drop 8) with
        | none => none
        | some (content, r) => (decodeCD r).map (content ++ ·)
      else none
    else if c = '&' then
      match hent : entitySplit rest with
      | none => none
      | some (name, r) =>
        match entityValue name with
        | none => none
        | some ch => (decodeCD r).map (ch :: ·)
    else
      (decodeCD rest).map (c :: ·)
termination_by s => s.length
decreasing_by
  · have key : ∀ (s : List Char) (p : List Char × List Char),
        splitCdata s = some p → p.2.length < s.length := by
      intro s
      induction s with
      | nil => intro p hp; simp [splitCdata] at hp
      | cons a as ih =>
        intro p hp
        rw [splitCdata] at hp
        split at hp
        · cases hp
          simp only [List.length_drop, List.length_cons]
          omega
        · cases hsub : splitCdata as with
          | none => rw [hsub] at hp; cases hp
          | some q =>
            rw [hsub] at hp
            cases hp
            have := ih q hsub
            simp only [List.length_cons]
            omega
    have hlt := key _ _ hsp
    simp only [List.length_drop, List.length_cons] at hlt ⊢
    omega
  · have key : ∀ (s : List Char) (p : List Char × List Char),
        entitySplit s = some p → p.2.length < s.length := by
      intro s
      induction s with
      | nil => intro p hp; simp [entitySplit] at hp
      | cons a as ih =>
        intro p hp
        rw [entitySplit] at hp
        split at hp
        · cases hp
          simp
        · cases hsub : entitySplit as with
          | none => rw [hsub] at hp; cases hp
          | some q =>
            rw [hsub] at hp
            cases hp
            have := ih q hsub
            simp only [List.length_cons]
            omega
    have hlt := key _ _ hent
    simp only [List.length_cons] at hlt ⊢
    omega
  · simp

/-- A concrete failed response, as a stub server answering a legacy add/delete
request with status 404 would produce it. -/
def r404 : HTTPResponse :=
  { method := "POST"
    url := "http://myanimelist.net/api/animelist/add/55.xml"
    statusCode := 404
    body := "Invalid ID" }

/-- A concrete successful response whose body is not valid XML. -/
def r200bad : HTTPResponse :=
  { method := "GET"
    url := "http://myanimelist.net/api/anime/search.xml?q=query"
    statusCode := 200
    body := "not an xml document" }

/-- Go's `stringContainsCTLByte` test: ASCII control characters make
`url.Parse` fail. -/
def isCtl (c : Char) : Bool := c.toNat < 0x20 || c.toNat == 0x7f

/-- The slice of a parsed URL that `parseOffset` consumes: its raw query. -/
structure URL where
  rawQuery : String
  deriving DecidableEq, Repr

/-- Characters before the first occurrence of `sep` (all of them if absent). -/
def takeUntilChar (sep : Char) : List Char → List Char
  | [] => []
  | c :: rest => if c = sep then [] else c :: takeUntilChar sep rest

/-- Characters after the first occurrence of `sep` (empty if absent),
matching `strings.Cut`'s second component. -/
def afterChar (sep : Char) : List Char → List Char
  | [] => []
  | c :: rest => if c = sep then rest else afterChar sep rest

/-- Embedding of `url.Parse` restricted to what `parseOffset` consumes: the
fragment is cut at the first `#`, the raw query is what follows the first
`?` of the remainder, and parsing fails on a control character
(`stringContainsCTLByte`).  Scheme, host and port validation concern URL
shapes the pagination claims never exercise and are not modelled; the
error path below covers any modelled parse failure. -/
def urlParse (s : String) : Option URL :=
  if s.data.any isCtl then none
  else some ⟨⟨afterChar '?' (takeUntilChar '#' s.data)⟩⟩

/-- Hexadecimal digit value, as `unhex` in `net/url`. -/
def hexVal (c : Char) : Option Nat :=
  if '0' ≤ c ∧ c ≤ '9' then some (c.toNat - 48)
  else if 'a' ≤ c ∧ c ≤ 'f' then some (c.toNat - 87)
  else if 'A' ≤ c ∧ c ≤ 'F' then some (c.toNat - 55)
  else none

/-- Embedding of `url.QueryUnescape`: `%XX` must have two hex digits, `+`
becomes a space, everything else passes through. -/
def queryUnescape : List Char → Option (List Char)
  | [] => some []
  | '%' :: rest =>
    match rest with
    | a :: b :: rest' =>
      match hexVal a, hexVal b with
      | some ha, some hb => (queryUnescape rest').map (Char.ofNat (16 * ha + hb) :: ·)
      | _, _ => none
    | _ => none
  | '+' :: rest => (queryUnescape rest).map (' ' :: ·)
  | c :: rest => (queryUnescape rest).map (c :: ·)

/-- `strings.Cut` at the first `=`: key and value (value empty if no `=`). -/
def cutEq : List Char → List Char × List Char
  | [] => ([], [])
  | c :: rest =>
    if c = '=' then ([], rest)
    else
      let p := cutEq rest
      (c :: p.1, p.2)

/-- Embedding of `url.ParseQuery` as `Query()` uses it (errors discarded):
split the raw query at `&`; a segment containing `;` or empty is skipped, as
is one whose key or value fails to unescape; otherwise cut at the first `=`
and unescape both sides. -/
def queryPairs (q : List Char) : List (String × String) :=
  (q.splitOn '&').filterMap fun seg =>
    if seg.contains ';' then none
    else if seg.isEmpty then none
    else
      let kv := cutEq seg
      match queryUnescape kv.1, queryUnescape kv.2 with
      | some k, some v => some (⟨k⟩, ⟨v⟩)
      | _, _ => none

/-- `url.Values.Get`: the first value for the key, `""` when absent. -/
def valuesGet (pairs : List (String × String)) (key : String) : String :=
  match pairs.find? (fun p => p.1 == key) with
  | some p => p.2
  | none => ""

/-- Decimal value of a digit string. -/
def digitsVal (ds : List Char) : Nat :=
  ds.foldl (fun acc c => acc * 10 + (c.toNat - 48)) 0

/-- Embedding of `strconv.Atoi` (64-bit `int`): an optional single sign,
then a non-empty run of decimal digits, failing on anything else and on
values outside the `int64` range. -/
def atoi (s : List Char) : Option Int :=
  let neg : Bool := s.head? == some '-'
  let ds : List Char := if s.head? == some '-' || s.head? == some '+' then s.tail else s
  if ds.isEmpty then none
  else if ds.all Char.isDigit then
    let v : Int := if neg then -(digitsVal ds : Int) else (digitsVal ds : Int)
    if -(2 ^ 63) ≤ v ∧ v ≤ 2 ^ 63 - 1 then some v else none
  else none

/-- The `offset` query parameter of a parsed URL, as
`u.Query().Get("offset")` computes it. -/
def offsetValue (u : URL) : String :=
  valuesGet (queryPairs u.rawQuery.data) "offset"

/-- Embedding of `parseOffset` (usermangalist.go 412-422): parse the URL,
extract the `offset` query parameter, convert with `Atoi`. -/
def parseOffset (urlStr : String) : Except String Int :=
  match urlParse urlStr with
  | none => .error ("parsing URL " ++ urlStr)
  | some u =>
    match atoi (offsetValue u).data with
    | none => .error "parsing offset"
    | some n => .ok n

/-- The paging object of a list response (`json:"paging"`). -/
structure Paging where
  next : String
  previous : String
  deriving DecidableEq, Repr

/-- Stand-in for the `Anime` record: the `List` shaping never reads its
fields, so a single identifying field suffices. -/
structure Anime where
  id : Int
  deriving DecidableEq, Repr

/-- One element of the `data` envelope (`json:"node"`). -/
structure AnimeDatum where
  node : Anime
  deriving DecidableEq, Repr

/-- The decoded `animeList` envelope. -/
structure AnimeList where
  data : List AnimeDatum
  paging : Paging
  deriving DecidableEq, Repr

/-- Modelled from the spec: the current-API `Response` carries pagination
offsets `NextOffset`/`PrevOffset` set by the caller layer.  The struct's own
definition is outside the given sources; `List` assigns the two fields at
usermangalist.go:395,402. -/
structure Response2 where
  nextOffset : Int
  prevOffset : Int
  deriving DecidableEq, Repr

/-- The flattening loop of `List`:
`for _, d := range list.Data { anime = append(anime, d.Anime) }`. -/
def flattenLoop : List AnimeDatum → List Anime → List Anime
  | [], acc => acc
  | d :: ds, acc => flattenLoop ds (acc ++ [d.node])

/-- Embedding of the shaping tail of `AnimeService.List`
(usermangalist.go 390-409), starting from the decoded envelope: extract the
previous offset if `Paging.Previous` is non-empty, then the next offset if
`Paging.Next` is non-empty, failing as the code does, then flatten the
envelope in order. -/
def listShape (l : AnimeList) (resp : Response2) :
    Except String (List Anime × Response2) :=
  let step1 : Except String Response2 :=
    if l.paging.previous = "" then .ok resp
    else
      match parseOffset l.paging.previous with
      | .error e => .error ("previous: " ++ e)
      | .ok o => .ok { resp with prevOffset := o }
  match step1 with
  | .error e => .error e
  | .ok r1 =>
    let step2 : Except String Response2 :=
      if l.paging.next = "" then .ok r1
      else
        match parseOffset l.paging.next with
        | .error e => .error ("next: " ++ e)
        | .ok o => .ok { r1 with nextOffset := o }
    match step2 with
    | .error e => .error e
    | .ok r2 => .ok (flattenLoop l.data [], r2)

/-- The endpoint constants of the legacy API (part_000 lines 21-27).  Note
the source really does point `deleteMangaURL` into the `animelist` family. -/
def updateMangaURL : String := "http://myanimelist.net/api/mangalist/update/"

def addMangaURL : String := "http://myanimelist.net/api/mangalist/add/"

def deleteMangaURL : String := "http://myanimelist.net/api/animelist/delete/"

def updateAnimeURL : String := "http://myanimelist.net/api/animelist/update/"

def addAnimeURL : String := "http://myanimelist.net/api/animelist/add/"

def deleteAnimeURL : String := "http://myanimelist.net/api/animelist/delete/"

/-- The request target built by `delete`: method DELETE and the URL
`fmt.Sprintf("%s%d.xml", endpoint, id)`. -/
def deleteRequestTarget (endpoint : String) (id : Nat) : String × String :=
  ("DELETE", endpoint ++ toString id ++ ".xml")

/-- The legacy `AnimeEntry` payload with the source's XML tags.  `Status` is
a string-valued type — modelled from the spec and the package's own test
(`AnimeEntry{Status: "watching"}`), its type definition being outside the
given sources.  `StorageValue` is `float64` in the source and is modelled as
`Int`: only its `omitempty` zero test and decimal rendering can matter
here. -/
structure AnimeEntry where
  episode : Int := 0
  status : String := ""
  score : Int := 0
  downloadedEpisodes : Int := 0
  storageType : Int := 0
  storageValue : Int := 0
  timesRewatched : Int := 0
  rewatchValue : Int := 0
  dateStart : String := ""
  dateFinish : String := ""
  priority : Int := 0
  enableDiscussion : Int := 0
  enableRewatching : Int := 0
  comments : String := ""
  fansubGroup : String := ""
  tags : String := ""
  deriving DecidableEq, Repr

/-- One marshalled XML element. -/
def xmlElem (name content : String) : String :=
  "<" ++ name ++ ">" ++ content ++ "</" ++ name ++ ">"

/-- An integer field without `omitempty`: always emitted. -/
def intField (name : String) (v : Int) : String := xmlElem name (toString v)

/-- An integer field with `omitempty`: omitted when zero. -/
def intFieldOmitEmpty (name : String) (v : Int) : String :=
  if v = 0 then "" else intField name v

/-- A string field with `omitempty`: omitted when empty. -/
def strFieldOmitEmpty (name s : String) : String :=
  if s = "" then "" else xmlElem name s

/-- Embedding of `xml.Marshal` on `AnimeEntry`: fields in declaration order;
`omitempty` fields are omitted at their zero value; fields without it —
`episode`, `score`, `times_rewatched`, `enable_rewatching`, `comments` —
are always emitted.  Escaping of text content is not modelled (no content
in the claims needs it). -/
def marshalAnimeEntry (e : AnimeEntry) : String :=
  "<entry>"
    ++ intField "episode" e.episode
    ++ strFieldOmitEmpty "status" e.status
    ++ intField "score" e.score
    ++ intFieldOmitEmpty "downloaded_episodes" e.downloadedEpisodes
    ++ intFieldOmitEmpty "storage_type" e.storageType
    ++ intFieldOmitEmpty "storage_value" e.storageValue
    ++ intField "times_rewatched" e.timesRewatched
    ++ intFieldOmitEmpty "rewatch_value" e.rewatchValue
    ++ strFieldOmitEmpty "date_start" e.dateStart
    ++ strFieldOmitEmpty "date_finish" e.dateFinish
    ++ intFieldOmitEmpty "priority" e.priority
    ++ intFieldOmitEmpty "enable_discussion" e.enableDiscussion
    ++ intField "enable_rewatching" e.enableRewatching
    ++ xmlElem "comments" e.comments
    ++ strFieldOmitEmpty "fansub_group" e.fansubGroup
    ++ strFieldOmitEmpty "tags" e.tags
    ++ "</entry>"

/-- The test's entry: only `Status` set. -/
def watchingEntry : AnimeEntry := { status := "watching" }

/-- The client configuration fields `NewRequest` reads. -/
structure ClientConfig where
  userAgent : String
  username : String
  password : String
  deriving DecidableEq, Repr

/-- The standard base64 alphabet. -/
def b64Alphabet : List Char :=
  "ABCDEFGHIJKLMNOPQRSTUVWXYZabcdefghijklmnopqrstuvwxyz0123456789+/".data

/-- Character at a sextet value. -/
def b64Char (n : Nat) : Char := b64Alphabet.getD n '?'

/-- `base64.StdEncoding.EncodeToString` over byte values. -/
def base64Chunks : List Nat → List Char
  | [] => []
  | [a] => [b64Char (a / 4), b64Char (a % 4 * 16), '=', '=']
  | [a, b] => [b64Char (a / 4), b64Char (a % 4 * 16 + b / 16), b64Char (b % 16 * 4), '=']
  | a :: b :: c :: rest =>
    b64Char (a / 4) :: b64Char (a % 4 * 16 + b / 16) ::
      b64Char (b % 16 * 4 + c / 64) :: b64Char (c % 64) :: base64Chunks rest

/-- The value `req.SetBasicAuth` stores in the `Authorization` header:
`"Basic " + base64(username + ":" + password)` (credentials taken as
ASCII, one character per byte). -/
def basicAuthValue (user pass : String) : String :=
  "Basic " ++ ⟨base64Chunks ((user ++ ":" ++ pass).data.map Char.toNat)⟩

/-- Embedding of the header block of `NewRequest` (part_000 107-113): the
`User-Agent` header is added when `c.UserAgent` is non-empty, and basic-auth
`Authorization` when `c.Username` is non-empty. -/
def newRequestHeaders (c : ClientConfig) : List (String × String) :=
  (if c.userAgent ≠ "" then [("User-Agent", c.userAgent)] else []) ++
    (if c.username ≠ "" then [("Authorization", basicAuthValue c.username c.password)] else [])

/-- Whether a header with the given name is present. -/
def hasHeader (hs : List (String × String)) (name : String) : Bool :=
  hs.any (fun h => h.1 == name)

theorem isPrefixOf_append_self (l r : List Char) : l.isPrefixOf (l ++ r) = true := by
  induction l with
  | nil => simp [List.isPrefixOf]
  | cons c cs ih => simp [List.isPrefixOf, ih]

theorem bull_no_match_at (c : Char) (rest : List Char) (h : c ≠ '&') :
    bull.isPrefixOf (c :: rest) = false := by
  simp only [bull, List.isPrefixOf, Bool.and_eq_false_iff]
  left
  simp [beq_eq_false_iff_ne]
  exact fun h' => h h'.symm

theorem replaceBull_nil : replaceBull [] = [] := by
  simp [replaceBull]

theorem replaceBull_cons (c : Char) (rest : List Char) :
    replaceBull (c :: rest) =
      if bull.isPrefixOf (c :: rest) then
        cdataBull ++ replaceBull (List.drop 6 (c :: rest))
      else
        c :: replaceBull rest := by
  rw [replaceBull]

theorem replaceBull_cons_ne (c : Char) (rest : List Char) (h : c ≠ '&') :
    replaceBull (c :: rest) = c :: replaceBull rest := by
  rw [replaceBull_cons, if_neg]
  simp [bull_no_match_at c rest h]

theorem replaceBull_bull_append (r : List Char) :
    replaceBull (bull ++ r) = cdataBull ++ replaceBull r := by
  have hpre : bull.isPrefixOf (bull ++ r) = true := isPrefixOf_append_self bull r
  have hshape : bull ++ r = '&' :: ('b' :: 'u' :: 'l' :: 'l' :: ';' :: r) := rfl
  rw [hshape, replaceBull_cons, if_pos]
  · congr 1
  · rw [← hshape, hpre]

theorem replaceBull_append_of_ampFree (p r : List Char) (h : ∀ c ∈ p, c ≠ '&') :
    replaceBull (p ++ r) = p ++ replaceBull r := by
  induction p with
  | nil => simp
  | cons c cs ih =>
    have hc : c ≠ '&' := h c (by simp)
    have hcs : ∀ x ∈ cs, x ≠ '&' := fun x hx => h x (by simp [hx])
    simp only [List.cons_append]
    rw [replaceBull_cons_ne c (cs ++ r) hc, ih hcs]

theorem replaceBull_of_not_contains (s : List Char) (h : containsSeq bull s = false) :
    replaceBull s = s := by
  induction s with
  | nil => exact replaceBull_nil
  | cons c rest ih =>
    simp only [containsSeq, Bool.or_eq_false_iff] at h
    rw [replaceBull_cons, if_neg (by simp [h.1]), ih h.2]

theorem replaceBull_glue (chunks : List (List Char))
    (h : ∀ c ∈ chunks, ∀ ch ∈ c, ch ≠ '&') :
    replaceBull (glueWith bull chunks) = glueWith cdataBull chunks := by
  induction chunks with
  | nil => simp [glueWith, replaceBull_nil]
  | cons c cs ih =>
    cases cs with
    | nil =>
      have := replaceBull_append_of_ampFree c [] (h c (by simp))
      simpa [glueWith, replaceBull_nil] using this
    | cons c' cs' =>
      have hc : ∀ ch ∈ c, ch ≠ '&' := h c (by simp)
      have hrest : ∀ x ∈ c' :: cs', ∀ ch ∈ x, ch ≠ '&' := by
        intro x hx
        exact h x (by simp [hx])
      show replaceBull (c ++ bull ++ glueWith bull (c' :: cs')) = _
      rw [List.append_assoc, replaceBull_append_of_ampFree c _ hc,
        replaceBull_bull_append, ih hrest]
      show _ = c ++ cdataBull ++ glueWith cdataBull (c' :: cs')
      rw [List.append_assoc]

theorem decodeCD_nil : decodeCD [] = some [] := by
  simp [decodeCD]

theorem decodeCD_cons_plain (c : Char) (rest : List Char) (h1 : c ≠ '<') (h2 : c ≠ '&') :
    decodeCD (c :: rest) = (decodeCD rest).map (c :: ·) := by
  rw [decodeCD]
  rw [if_neg h1, if_neg h2]

theorem decodeCD_append_safe (p r : List Char) (h : ∀ ch ∈ p, ch ≠ '&' ∧ ch ≠ '<') :
    decodeCD (p ++ r) = (decodeCD r).map (p ++ ·) := by
  induction p with
  | nil => cases hd : decodeCD r <;> simp [hd]
  | cons c cs ih =>
    have hc := h c (by simp)
    have hcs : ∀ ch ∈ cs, ch ≠ '&' ∧ ch ≠ '<' := fun ch hch => h ch (by simp [hch])
    rw [List.cons_append, decodeCD_cons_plain c (cs ++ r) hc.2 hc.1, ih hcs]
    cases hd : decodeCD r <;> simp [hd]

theorem splitCdata_bull (r : List Char) :
    splitCdata (bull ++ (']' :: ']' :: '>' :: r)) = some (bull, r) := by
  simp [bull, splitCdata, List.isPrefixOf]

theorem entitySplit_bull (r : List Char) :
    entitySplit (['b', 'u', 'l', 'l', ';'] ++ r) = some (['b', 'u', 'l', 'l'], r) := by
  simp [entitySplit]

theorem decodeCD_bull_fails (r : List Char) : decodeCD (bull ++ r) = none := by
  have hshape : bull ++ r = '&' :: (['b', 'u', 'l', 'l', ';'] ++ r) := rfl
  rw [hshape, decodeCD]
  rw [if_neg (by decide), if_pos rfl]
  rw [entitySplit_bull]
  rfl

theorem decodeCD_cdataBull (r : List Char) :
    decodeCD (cdataBull ++ r) = (decodeCD r).map (bull ++ ·) := by
  have hshape : cdataBull ++ r =
      '<' :: (cdataOpenTail ++ (bull ++ (']' :: ']' :: '>' :: r))) := rfl
  rw [hshape, decodeCD]
  rw [if_pos rfl, if_pos (isPrefixOf_append_self cdataOpenTail _)]
  have hdrop : (cdataOpenTail ++ (bull ++ (']' :: ']' :: '>' :: r))).drop 8 =
      bull ++ (']' :: ']' :: '>' :: r) := by
    have : (8 : Nat) = cdataOpenTail.length := rfl
    rw [this, List.drop_left]
  rw [hdrop]
  have := splitCdata_bull r
  split
  · simp_all
  · rename_i content r' heq
    rw [this] at heq
    cases heq
    rfl

theorem containsSeq_mid_bull (p r : List Char) :
    containsSeq bull (p ++ (bull ++ r)) = true := by
  induction p with
  | nil =>
    show containsSeq bull (bull ++ r) = true
    cases hb : bull ++ r with
    | nil => simp [bull] at hb
    | cons c cs =>
      rw [containsSeq, ← hb, isPrefixOf_append_self]
      simp
  | cons c cs ih =>
    rw [List.cons_append, containsSeq, ih]
    simp

theorem decodeCD_glue (chunks : List (List Char))
    (h : ∀ c ∈ chunks, ∀ ch ∈ c, ch ≠ '&' ∧ ch ≠ '<') :
    decodeCD (glueWith cdataBull chunks) = some (glueWith bull chunks) := by
  induction chunks with
  | nil => simp [glueWith, decodeCD_nil]
  | cons c cs ih =>
    cases cs with
    | nil =>
      show decodeCD c = some c
      have := decodeCD_append_safe c [] (h c (by simp))
      simpa [decodeCD_nil] using this
    | cons c' cs' =>
      have hc := h c (by simp)
      have hrest : ∀ x ∈ c' :: cs', ∀ ch ∈ x, ch ≠ '&' ∧ ch ≠ '<' := by
        intro x hx
        exact h x (by simp [hx])
      show decodeCD (c ++ cdataBull ++ glueWith cdataBull (c' :: cs')) = _
      rw [List.append_assoc, decodeCD_append_safe c _ hc, decodeCD_cdataBull, ih hrest]
      show _ = some (c ++ bull ++ glueWith bull (c' :: cs'))
      simp [List.append_assoc]

/-- Claim C3: for every element text made of `&`- and `<`-free chunks with at
least one `&bull;` occurrence between them (the spec's `A&bull;B` shape, any
number of occurrences), the text does contain `&bull;`, the strict XML
chardata decoder fails on it as delivered, and after the `Do` rewrite the
decode succeeds and yields the original text — the literal `&bull;` is
preserved in the decoded field. -/
theorem bull_rewrite_enables_decode (chunks : List (List Char))
    (hsafe : ∀ c ∈ chunks, ∀ ch ∈ c, ch ≠ '&' ∧ ch ≠ '<')
    (hlen : 2 ≤ chunks.length) :
    containsSeq bull (glueWith bull chunks) = true ∧
    decodeCD (glueWith bull chunks) = none ∧
    decodeCD (replaceBull (glueWith bull chunks)) = some (glueWith bull chunks) := by
  have hglueRw : replaceBull (glueWith bull chunks) = glueWith cdataBull chunks :=
    replaceBull_glue chunks (fun c hc ch hch => (hsafe c hc ch hch).1)
  refine ⟨?_, ?_, ?_⟩
  · match chunks, hlen with
    | c :: c' :: cs, _ =>
      show containsSeq bull (c ++ bull ++ glueWith bull (c' :: cs)) = true
      rw [List.append_assoc]
      exact containsSeq_mid_bull c _
  · match chunks, hlen with
    | c :: c' :: cs, _ =>
      show decodeCD (c ++ bull ++ glueWith bull (c' :: cs)) = none
      rw [List.append_assoc, decodeCD_append_safe c _ (hsafe c (by simp)),
        decodeCD_bull_fails]
      rfl
  · rw [hglueRw]
    exact decodeCD_glue chunks hsafe

/-- Witness for claim C3 on the spec's `A&bull;B` body. -/
theorem bull_rewrite_enables_decode_witness :
    containsSeq bull (glueWith bull [['A'], ['B']]) = true ∧
    decodeCD (glueWith bull [['A'], ['B']]) = none ∧
    decodeCD (replaceBull (glueWith bull [['A'], ['B']])) =
      some (glueWith bull [['A'], ['B']]) :=
  bull_rewrite_enables_decode [['A'], ['B']] (by decide) (by decide)

/-- Claim C1: `readResponse` classifies status codes in [200,299] as success,
and for every status code outside that range it returns an error that carries
the request method, the resolved URL, the status code, and the raw body text
preserved unmodified (as built by `fmt.Errorf` with the `%s` body verb). -/
theorem readResponse_status_classification (r : HTTPResponse) :
    readResponse r =
      ({ resp := r, body := r.body },
        if 200 ≤ r.statusCode ∧ r.statusCode ≤ 299 then none
        else some (r.method ++ " " ++ r.url ++ ": " ++ toString r.statusCode ++ " " ++ r.body)) := by
  by_cases h : 200 ≤ r.statusCode ∧ r.statusCode ≤ 299
  · have hc : (decide (r.statusCode < 200) || decide (r.statusCode > 299)) = false := by
      simp only [Bool.or_eq_false_iff, decide_eq_false_iff_not, not_lt]
      omega
    simp [readResponse, hc, h]
  · have hc : (decide (r.statusCode < 200) || decide (r.statusCode > 299)) = true := by
      simp only [Bool.or_eq_true, decide_eq_true_eq]
      omega
    simp [readResponse, hc, h, requestFailedMsg]

/-- Claim C2, counterexample: the `&bull;` rewrite is not idempotent.  On the
body `"&bull;"` one application yields `<![CDATA[&bull;]]>`, and a second
application rewrites the `&bull;` inside the inserted CDATA wrapper again. -/
theorem bullRewrite_not_idempotent :
    bullRewrite (bullRewrite "&bull;") ≠ bullRewrite "&bull;" := by
  have h1 : replaceBull "&bull;".data = cdataBull := by
    have hb : "&bull;".data = bull ++ [] := by decide
    rw [hb, replaceBull_bull_append, replaceBull_nil, List.append_nil]
  have h2 : replaceBull cdataBull =
      ['<', '!', '[', 'C', 'D', 'A', 'T', 'A', '['] ++ cdataBull ++ [']', ']', '>'] := by
    have hs : cdataBull =
        ['<', '!', '[', 'C', 'D', 'A', 'T', 'A', '['] ++ (bull ++ [']', ']', '>']) := by decide
    conv_lhs => rw [hs]
    rw [replaceBull_append_of_ampFree _ _ (by decide), replaceBull_bull_append,
      replaceBull_of_not_contains _ (by decide), List.append_assoc]
  have hone : bullRewrite "&bull;" = ⟨cdataBull⟩ := by
    show (⟨replaceBull "&bull;".data⟩ : String) = ⟨cdataBull⟩
    rw [h1]
  rw [hone]
  show (⟨replaceBull cdataBull⟩ : String) ≠ ⟨cdataBull⟩
  rw [h2]
  intro hcontra
  have : (['<', '!', '[', 'C', 'D', 'A', 'T', 'A', '['] ++ cdataBull ++ [']', ']', '>'])
      = cdataBull := congrArg String.data hcontra
  exact absurd this (by decide)

/-- Claim C2 (amended): the rewrite is scoped — a body with no occurrence of
`&bull;` is unchanged byte-for-byte, and on a body that is `&`-free chunks
interleaved with `&bull;` occurrences it replaces exactly the occurrences and
alters no other content.  It is not idempotent (see the counterexample). -/
theorem bullRewrite_scoped (s : String) (chunks : List (List Char))
    (hs : containsSeq bull s.data = false)
    (hc : ∀ c ∈ chunks, ∀ ch ∈ c, ch ≠ '&') :
    bullRewrite s = s ∧
      replaceBull (glueWith bull chunks) = glueWith cdataBull chunks := by
  constructor
  · show (⟨replaceBull s.data⟩ : String) = s
    rw [replaceBull_of_not_contains s.data hs]
  · exact replaceBull_glue chunks hc

/-- Witness for the amended claim C2 at concrete inputs. -/
theorem bullRewrite_scoped_witness :
    bullRewrite "plain body with an entity &amp; nothing else" =
        "plain body with an entity &amp; nothing else" ∧
      replaceBull (glueWith bull [['A'], ['B']]) = glueWith cdataBull [['A'], ['B']] :=
  bullRewrite_scoped "plain body with an entity &amp; nothing else" [['A'], ['B']]
    (by decide) (by decide)

/-- Claim C4, counterexample: `post` receives a `Response` from `Do` for a
404 reply but returns a nil `Response` to its caller alongside the error, so
the partially populated `Response` is not returned by `Add`/`Update`. -/
theorem post_drops_response_on_error :
    post r404 = (none, some (requestFailedMsg r404)) ∧
      (Do r404 none).1 = some { resp := r404, body := r404.body } := by
  constructor <;> rfl

/-- Claim C4 (amended): when a call ends in an error after a response was
received, `Do` and `query` return the partially populated `Response` (status
and buffered body) alongside the error, but `post` and `delete` — hence the
public `Add`, `Update` and `Delete` operations built on them — discard it and
return a nil `Response` with the error. -/
theorem response_return_on_error (r : HTTPResponse)
    (dec : String → Except String Unit) (e : String) :
    ((r.statusCode < 200 ∨ 299 < r.statusCode) →
      Do r none = (some { resp := r, body := r.body }, some (requestFailedMsg r)) ∧
      post r = (none, some (requestFailedMsg r)) ∧
      deleteCall r = (none, some (requestFailedMsg r)) ∧
      query r dec = (some { resp := r, body := r.body }, some (requestFailedMsg r))) ∧
    (200 ≤ r.statusCode → r.statusCode ≤ 299 → dec (bullRewrite r.body) = .error e →
      Do r (some dec) = (some { resp := r, body := r.body }, some ("cannot decode: " ++ e)) ∧
      query r dec = (some { resp := r, body := r.body }, some ("cannot decode: " ++ e))) := by
  constructor
  · intro h
    have hc : (decide (r.statusCode < 200) || decide (r.statusCode > 299)) = true := by
      simp only [Bool.or_eq_true, decide_eq_true_eq]
      omega
    refine ⟨?_, ?_, ?_, ?_⟩ <;> simp [Do, post, deleteCall, query, readResponse, hc]
  · intro h1 h2 hdec
    have hc : (decide (r.statusCode < 200) || decide (r.statusCode > 299)) = false := by
      simp only [Bool.or_eq_false_iff, decide_eq_false_iff_not, not_lt]
      omega
    refine ⟨?_, ?_⟩ <;> simp [Do, query, readResponse, hc, hdec]

/-- Witness for the amended claim C4: the 404 case through `post`, and a
decode failure through `Do` with a non-nil target. -/
theorem response_return_on_error_witness :
    post r404 = (none, some (requestFailedMsg r404)) ∧
      Do r200bad (some fun _ => Except.error "unexpected element") =
        (some { resp := r200bad, body := r200bad.body },
          some ("cannot decode: " ++ "unexpected element")) := by
  constructor
  · exact ((response_return_on_error r404 (fun _ => Except.error "unexpected element")
      "unexpected element").1 (by right; decide)).2.1
  · exact ((response_return_on_error r200bad (fun _ => Except.error "unexpected element")
      "unexpected element").2 (by decide) (by decide) rfl).1

/-- Claim C10: with a nil decode target, `Do` skips decoding entirely — for
every 2xx response it returns the `Response` and a nil error regardless of
the body's content, even when the body is not valid XML. -/
theorem do_nil_target_skips_decode (r : HTTPResponse)
    (h1 : 200 ≤ r.statusCode) (h2 : r.statusCode ≤ 299) :
    Do r none = (some { resp := r, body := r.body }, none) := by
  have hc : (decide (r.statusCode < 200) || decide (r.statusCode > 299)) = false := by
    simp only [Bool.or_eq_false_iff, decide_eq_false_iff_not, not_lt]
    omega
  simp [Do, readResponse, hc]

/-- Witness for claim C10 at a 200 response whose body is not valid XML. -/
theorem do_nil_target_skips_decode_witness :
    Do r200bad none = (some { resp := r200bad, body := r200bad.body }, none) :=
  do_nil_target_skips_decode r200bad (by decide) (by decide)

/-- Claim C5: the legacy `delete` request uses method DELETE and the URL
`endpoint ++ id ++ ".xml"`; the anime endpoint is in the animelist family as
claimed, but the source's `deleteMangaURL` constant also points into the
`animelist` family, contradicting the claim (and the constant's own name)
that manga deletes target `/api/mangalist/delete/`. -/
theorem deleteMangaURL_targets_animelist :
    deleteRequestTarget deleteAnimeURL 55 =
      ("DELETE", "http://myanimelist.net/api/animelist/delete/55.xml") ∧
    deleteRequestTarget deleteMangaURL 55 =
      ("DELETE", "http://myanimelist.net/api/animelist/delete/55.xml") ∧
    deleteMangaURL ≠ "http://myanimelist.net/api/mangalist/delete/" := by
  refine ⟨rfl, rfl, by decide⟩

/-- Claim C7: marshalling the entry whose only set field is
`Status = "watching"` emits the `episode`, `score`, `times_rewatched`,
`enable_rewatching` and `comments` fields too, because their tags carry no
`omitempty`; the body is therefore not the claimed
`<entry><status>watching</status></entry>`. -/
theorem marshal_watching_entry_eval :
    marshalAnimeEntry watchingEntry =
      "<entry><episode>0</episode><status>watching</status><score>0</score><times_rewatched>0</times_rewatched><enable_rewatching>0</enable_rewatching><comments></comments></entry>" ∧
    marshalAnimeEntry watchingEntry ≠ "<entry><status>watching</status></entry>" := by
  refine ⟨rfl, by decide⟩

theorem atoi_digits (ds : List Char) (hne : ds ≠ [])
    (hdig : ∀ c ∈ ds, c.isDigit = true)
    (hrange : (digitsVal ds : Int) ≤ 2 ^ 63 - 1) :
    atoi ds = some (digitsVal ds) := by
  cases ds with
  | nil => exact absurd rfl hne
  | cons c rest =>
    have hc : c.isDigit = true := hdig c (by simp)
    have hcm : c ≠ '-' := by
      intro h
      rw [h] at hc
      exact absurd hc (by decide)
    have hcp : c ≠ '+' := by
      intro h
      rw [h] at hc
      exact absurd hc (by decide)
    have h1 : ((c :: rest).head? == some '-') = false := by
      simp only [List.head?_cons, beq_eq_false_iff_ne, ne_eq, Option.some.injEq]
      exact hcm
    have h2 : ((c :: rest).head? == some '+') = false := by
      simp only [List.head?_cons, beq_eq_false_iff_ne, ne_eq, Option.some.injEq]
      exact hcp
    have hall : (c :: rest).all Char.isDigit = true := by
      rw [List.all_eq_true]
      exact hdig
    have hpos : (0 : Int) ≤ (digitsVal (c :: rest) : Int) := Int.natCast_nonneg _
    show atoi (c :: rest) = some (digitsVal (c :: rest))
    unfold atoi
    rw [h1, h2]
    simp only [Bool.or_self, Bool.false_eq_true, if_false, List.isEmpty_cons, hall, if_true]
    rw [if_pos ⟨le_trans (by norm_num) hpos, hrange⟩]
    simp

/-- Claim C6: `parseOffset` returns the integer value of the `offset` query
parameter when it is a decimal integer (in `int` range), fails with an error
when the URL cannot be parsed, and fails with an error when the URL parses
but the `offset` parameter is missing or non-numeric (`Atoi` rejects it). -/
theorem parseOffset_classification (s : String) (u : URL) (ds : List Char) :
    (urlParse s = none → ∃ e, parseOffset s = .error e) ∧
    (urlParse s = some u → (offsetValue u).data = ds → ds ≠ [] →
      (∀ c ∈ ds, c.isDigit = true) → (digitsVal ds : Int) ≤ 2 ^ 63 - 1 →
      parseOffset s = .ok (digitsVal ds)) ∧
    (urlParse s = some u → atoi (offsetValue u).data = none →
      ∃ e, parseOffset s = .error e) := by
  refine ⟨?_, ?_, ?_⟩
  · intro h
    exact ⟨"parsing URL " ++ s, by simp [parseOffset, h]⟩
  · intro hu hov hne hdig hrange
    have hds := atoi_digits ds hne hdig hrange
    simp [parseOffset, hu, hov, hds]
  · intro hu hnone
    exact ⟨"parsing offset", by simp [parseOffset, hu, hnone]⟩

/-- Witness for claim C6: the spec's `offset=12` URL, a URL with no `offset`
parameter, and a URL that fails to parse (control character). -/
theorem parseOffset_classification_witness :
    parseOffset "https://api.myanimelist.net/v2/anime?offset=12" = .ok 12 ∧
    (∃ e, parseOffset "https://api.myanimelist.net/v2/anime" = .error e) ∧
    (∃ e, parseOffset "https://api.myanimelist.net/v2/ani\tme" = .error e) := by
  refine ⟨?_, ?_, ?_⟩
  · exact (parseOffset_classification "https://api.myanimelist.net/v2/anime?offset=12"
      ⟨"offset=12"⟩ ['1', '2']).2.1 rfl rfl (by decide) (by decide) (by decide)
  · exact (parseOffset_classification "https://api.myanimelist.net/v2/anime"
      ⟨""⟩ []).2.2 rfl rfl
  · exact (parseOffset_classification "https://api.myanimelist.net/v2/ani\tme"
      ⟨""⟩ []).1 rfl

theorem flattenLoop_eq (ds : List AnimeDatum) :
    ∀ acc, flattenLoop ds acc = acc ++ ds.map (·.node) := by
  induction ds with
  | nil => intro acc; simp [flattenLoop]
  | cons d ds ih =>
    intro acc
    rw [flattenLoop, ih]
    simp

/-- Claim C8: on a successfully decoded list envelope, `List` flattens the
`data`/`node` envelope preserving order, and each non-empty paging URL whose
`offset` parameter parses sets the corresponding offset on the returned
`Response` (an empty paging URL leaves the field as it was). -/
theorem list_flatten_and_offsets (l : AnimeList) (r : Response2) (p n : Int)
    (hp : l.paging.previous ≠ "" → parseOffset l.paging.previous = .ok p)
    (hn : l.paging.next ≠ "" → parseOffset l.paging.next = .ok n) :
    listShape l r = .ok (l.data.map (·.node),
      { nextOffset := if l.paging.next = "" then r.nextOffset else n,
        prevOffset := if l.paging.previous = "" then r.prevOffset else p }) := by
  by_cases hpe : l.paging.previous = ""
  · by_cases hne : l.paging.next = ""
    · simp [listShape, hpe, hne, flattenLoop_eq]
    · simp [listShape, hpe, hne, hn hne, flattenLoop_eq]
  · by_cases hne : l.paging.next = ""
    · simp [listShape, hpe, hne, hp hpe, flattenLoop_eq]
    · simp [listShape, hpe, hne, hp hpe, hn hne, flattenLoop_eq]

/-- Witness for claim C8 on a two-element envelope with both paging URLs. -/
theorem list_flatten_and_offsets_witness :
    listShape
      { data := [{ node := { id := 967 } }, { node := { id := 1356 } }],
        paging :=
          { next := "https://api.myanimelist.net/v2/anime?offset=12",
            previous := "https://api.myanimelist.net/v2/anime?offset=4" } }
      { nextOffset := 0, prevOffset := 0 } =
      .ok ([{ id := 967 }, { id := 1356 }], { nextOffset := 12, prevOffset := 4 }) := by
  have h := list_flatten_and_offsets
    { data := [{ node := { id := 967 } }, { node := { id := 1356 } }],
      paging :=
        { next := "https://api.myanimelist.net/v2/anime?offset=12",
          previous := "https://api.myanimelist.net/v2/anime?offset=4" } }
    { nextOffset := 0, prevOffset := 0 } 4 12
    (fun _ => rfl) (fun _ => rfl)
  simpa using h

/-- Claim C9: the legacy `NewRequest` attaches the `User-Agent` header
exactly when the client's `UserAgent` is non-empty, and the basic-auth
`Authorization` header exactly when the client's `Username` is non-empty —
in particular a non-empty `Password` alone attaches nothing. -/
theorem newRequest_header_presence (c : ClientConfig) :
    hasHeader (newRequestHeaders c) "User-Agent" = (c.userAgent != "") ∧
    hasHeader (newRequestHeaders c) "Authorization" = (c.username != "") := by
  by_cases hua : c.userAgent = "" <;> by_cases hun : c.username = "" <;>
    simp [newRequestHeaders, hasHeader, hua, hun]

end Mal
